import Mathlib

/-!
Verification development for the qyl-hf-backup repository: a shallow
embedding in Lean 4 of the backup orchestration and retention engine found
in `hf_dataset_backup.py`, `db_backup.py`, `simple_backup.py` and
`multi_accounts_backup.py`, together with theorems settling the spec's
claims about it.

Modelling conventions:
- Python strings are Lean `String`s; all character-level operations
  (`startswith`, `endswith`, `sort`, `split`) are modelled on `String.data`
  (the list of characters), because Python compares strings by code points
  and `Char` order in Lean is exactly the code-point order.
- The WebDAV store is modelled by the data the scripts read from it: the
  listing of a directory is a `List String` of file names; the remote
  directory tree is a `List (List String)` of existing directory paths
  (a path is its list of components).
- Fallible collaborator calls (download, upload, list, delete) are modelled
  as `Except String` values injected into the control-flow functions; the
  control flow of the scripts (which call happens, in which order, and what
  propagates) is translated directly from the source.
-/

/-! ## String order and matching primitives -/

/-- Python string comparison `a <= b`: code-point lexicographic order,
modelled on the character lists (`List Char` carries the lexicographic
linear order, and `Char` order is code-point order, as in Python). -/
def strLe (a b : String) : Prop := a.data ≤ b.data

instance : DecidableRel strLe := fun a b => inferInstanceAs (Decidable (a.data ≤ b.data))

instance : IsTotal String strLe := ⟨fun a b => le_total a.data b.data⟩

instance : IsTrans String strLe := ⟨fun _ _ _ h1 h2 => le_trans h1 h2⟩

instance : IsAntisymm String strLe := ⟨fun a b h1 h2 => by
  have h : a.data = b.data := le_antisymm h1 h2
  cases a; cases b; exact congrArg String.mk h⟩

/-- Python `f.startswith(p)`. -/
def pyStartsWith (f p : String) : Bool := p.data.isPrefixOf f.data

/-- Python `f.endswith(s)`. -/
def pyEndsWith (f s : String) : Bool := s.data.isSuffixOf f.data

/-- Python `s.split('/')` on the character list: groups of characters
separated by the slashes. -/
def splitSlash : List Char → List (List Char)
  | [] => [[]]
  | c :: cs =>
    match splitSlash cs with
    | [] => [[]]
    | g :: gs => if c = '/' then [] :: g :: gs else (c :: g) :: gs

/-- Python `dataset_name.split('/')[-1]` (hf_dataset_backup.py line 109):
the short name after the last slash. -/
def short_name (s : String) : String := String.mk ((splitSlash s.data).getLastD [])

/-! ## RetentionPolicy: cleanup_old_backups

The three scripts share one retention shape (hf_dataset_backup.py lines
107-138, db_backup.py lines 248-278, simple_backup.py lines 200-267):
filter the listing down to the names that start with a declared prefix and
end with a whitelisted extension, and if more than `max_backups` match,
sort and delete the first `len(matched) - max_backups` names. -/

/-- The matching test of hf_dataset_backup.py line 117 / db_backup.py line
257, generalized over the declared name list and extension whitelist:
`f.startswith(name) and f.endswith(ext)` for some declared name and some
whitelisted extension. -/
def matchesTarget (pfxs exts : List String) (f : String) : Bool :=
  pfxs.any (fun p => pyStartsWith f p) && exts.any (fun e => pyEndsWith f e)

/-- The `backup_files` list the cleanup computes from the remote listing. -/
def matchedFiles (files pfxs exts : List String) : List String :=
  files.filter (matchesTarget pfxs exts)

/-- Core of `cleanup_old_backups` (hf_dataset_backup.py lines 119-131,
db_backup.py lines 259-271): if at most `max_backups` names match, return
with no deletion; otherwise `backup_files.sort()` (Python's sort is a
stable sort by code-point order, so the sorted list is the unique
`strLe`-sorted permutation) and delete `backup_files[i]` for
`i in range(len(backup_files) - max_backups)`, i.e. the first
`len - max_backups` names of the sorted list. The returned list is the
list of names passed to `webdav_client.clean`, in order. -/
def cleanup_old_backups (files pfxs exts : List String) (max_backups : Nat) : List String :=
  if (matchedFiles files pfxs exts).length ≤ max_backups then []
  else
    (List.insertionSort strLe (matchedFiles files pfxs exts)).take
      ((matchedFiles files pfxs exts).length - max_backups)

/-- The `backup_files` of hf_dataset_backup.py line 117: names starting
with the dataset's short name and ending with `.zip`. -/
def hf_backup_files (files : List String) (dataset_name : String) : List String :=
  matchedFiles files [short_name dataset_name] [".zip"]

/-- hf_dataset_backup.py `cleanup_old_backups` (lines 107-138). -/
def hf_cleanup_old_backups (files : List String) (dataset_name : String)
    (max_backups : Nat) : List String :=
  cleanup_old_backups files [short_name dataset_name] [".zip"] max_backups

/-- db_backup.py `cleanup_old_backups` (lines 248-278): the declared name is
the database name and the whitelist is `.sql`, `.dump`, `.zip`, `.db`. -/
def db_cleanup_old_backups (files : List String) (db_name : String)
    (max_backups : Nat) : List String :=
  cleanup_old_backups files [db_name] [".sql", ".dump", ".zip", ".db"] max_backups

/-! ## simple_backup.py cleanup_old_backups (lines 200-267) -/

/-- simple_backup.py lines 210-217: the declared prefixes are the given name
plus the hardcoded sjg/sillytavern alternate. -/
def possible_pfx_names (name : String) : List String :=
  if name = "sjg" then ["sjg", "sillytavern"]
  else if name = "sillytavern" then ["sillytavern", "sjg"]
  else [name]

/-- simple_backup.py lines 224-226 (is_db branch): bare prefix plus the
database extension whitelist. -/
def dbMatchesPat (p f : String) : Bool :=
  pyStartsWith f p
    && (pyEndsWith f ".sql" || pyEndsWith f ".dump" || pyEndsWith f ".zip" || pyEndsWith f ".db")

/-- simple_backup.py lines 233-236 (is_project branch): the strict project
pattern, `f.startswith(p + "_backup_") or f.startswith(p + "_20")`, plus the
archive extension whitelist. -/
def projectMatchesPat (p f : String) : Bool :=
  (pyStartsWith f (p ++ "_backup_") || pyStartsWith f (p ++ "_20"))
    && (pyEndsWith f ".zip" || pyEndsWith f ".tar.gz" || pyEndsWith f ".7z")

/-- simple_backup.py lines 240-241 (fallback branch): bare prefix plus the
archive extension whitelist. -/
def projSimpleMatchesPat (p f : String) : Bool :=
  pyStartsWith f p
    && (pyEndsWith f ".zip" || pyEndsWith f ".tar.gz" || pyEndsWith f ".7z")

/-- simple_backup.py lines 219-244: `backup_files` is accumulated over every
possible prefix (`extend` per prefix, so one name can enter once per prefix
it matches) and then deduplicated by `list(set(backup_files))`. The set
conversion returns the distinct names in an unspecified order; `dedup`
(keep first occurrences) is one such order, and the later `sort()`
canonicalizes the order, so the choice is observationally irrelevant. -/
def simple_backup_files (files : List String) (name : String)
    (is_db is_project : Bool) : List String :=
  ((possible_pfx_names name).flatMap (fun p =>
    files.filter (fun f =>
      if is_db then dbMatchesPat p f
      else if is_project then projectMatchesPat p f
      else projSimpleMatchesPat p f))).dedup

/-- simple_backup.py `cleanup_old_backups` (lines 200-267): same retention
core applied to the deduplicated matched list (lines 248-262). -/
def simple_cleanup_old_backups (files : List String) (name : String)
    (max_backups : Nat) (is_db is_project : Bool) : List String :=
  if (simple_backup_files files name is_db is_project).length ≤ max_backups then []
  else
    (List.insertionSort strLe (simple_backup_files files name is_db is_project)).take
      ((simple_backup_files files name is_db is_project).length - max_backups)

/-! ## Retention lemmas -/

lemma matched_nodup {files : List String} (pfxs exts : List String)
    (hnd : files.Nodup) : (matchedFiles files pfxs exts).Nodup :=
  hnd.filter _

lemma sort_matched_perm (m : List String) :
    (List.insertionSort strLe m).Perm m :=
  List.perm_insertionSort strLe m

lemma sort_matched_sorted (m : List String) :
    List.Sorted strLe (List.insertionSort strLe m) :=
  List.sorted_insertionSort strLe m

lemma cleanup_eq_nil_of_le {files pfxs exts : List String} {mb : Nat}
    (h : (matchedFiles files pfxs exts).length ≤ mb) :
    cleanup_old_backups files pfxs exts mb = [] := by
  simp only [cleanup_old_backups, if_pos h]

lemma cleanup_eq_take {files pfxs exts : List String} {mb : Nat}
    (h : ¬ (matchedFiles files pfxs exts).length ≤ mb) :
    cleanup_old_backups files pfxs exts mb
      = (List.insertionSort strLe (matchedFiles files pfxs exts)).take
          ((matchedFiles files pfxs exts).length - mb) := by
  simp only [cleanup_old_backups, if_neg h]

lemma cleanup_length (files pfxs exts : List String) (mb : Nat) :
    (cleanup_old_backups files pfxs exts mb).length
      = (matchedFiles files pfxs exts).length - mb := by
  by_cases h : (matchedFiles files pfxs exts).length ≤ mb
  · rw [cleanup_eq_nil_of_le h]
    simpa using (Nat.sub_eq_zero_of_le h).symm
  · rw [cleanup_eq_take h, List.length_take,
      (sort_matched_perm (matchedFiles files pfxs exts)).length_eq]
    exact min_eq_left (Nat.sub_le _ _)

lemma cleanup_subset {files pfxs exts : List String} {mb : Nat} {d : String}
    (hd : d ∈ cleanup_old_backups files pfxs exts mb) :
    d ∈ matchedFiles files pfxs exts := by
  by_cases h : (matchedFiles files pfxs exts).length ≤ mb
  · rw [cleanup_eq_nil_of_le h] at hd
    exact absurd hd (List.not_mem_nil d)
  · rw [cleanup_eq_take h] at hd
    exact (sort_matched_perm (matchedFiles files pfxs exts)).mem_iff.mp
      (List.mem_of_mem_take hd)

lemma cleanup_kept_mem_drop {files pfxs exts : List String} {mb : Nat} {k : String}
    (h : ¬ (matchedFiles files pfxs exts).length ≤ mb)
    (hk : k ∈ matchedFiles files pfxs exts)
    (hkn : k ∉ cleanup_old_backups files pfxs exts mb) :
    k ∈ (List.insertionSort strLe (matchedFiles files pfxs exts)).drop
          ((matchedFiles files pfxs exts).length - mb) := by
  rw [cleanup_eq_take h] at hkn
  have hks : k ∈ List.insertionSort strLe (matchedFiles files pfxs exts) :=
    (sort_matched_perm (matchedFiles files pfxs exts)).mem_iff.mpr hk
  rw [← List.take_append_drop ((matchedFiles files pfxs exts).length - mb)
    (List.insertionSort strLe (matchedFiles files pfxs exts))] at hks
  rcases List.mem_append.mp hks with h1 | h2
  · exact absurd h1 hkn
  · exact h2

lemma cleanup_lt_kept {files pfxs exts : List String} {mb : Nat} {d k : String}
    (hnd : files.Nodup)
    (hd : d ∈ cleanup_old_backups files pfxs exts mb)
    (hk : k ∈ matchedFiles files pfxs exts)
    (hkn : k ∉ cleanup_old_backups files pfxs exts mb) :
    strLe d k ∧ d ≠ k := by
  by_cases h : (matchedFiles files pfxs exts).length ≤ mb
  · rw [cleanup_eq_nil_of_le h] at hd
    exact absurd hd (List.not_mem_nil d)
  · have hkd := cleanup_kept_mem_drop h hk hkn
    rw [cleanup_eq_take h] at hd
    have hsorted := sort_matched_sorted (matchedFiles files pfxs exts)
    have hsplit := List.take_append_drop ((matchedFiles files pfxs exts).length - mb)
      (List.insertionSort strLe (matchedFiles files pfxs exts))
    have hpair : List.Pairwise strLe
        ((List.insertionSort strLe (matchedFiles files pfxs exts)).take
            ((matchedFiles files pfxs exts).length - mb)
          ++ (List.insertionSort strLe (matchedFiles files pfxs exts)).drop
            ((matchedFiles files pfxs exts).length - mb)) := by
      rw [hsplit]; exact hsorted
    have hle := (List.pairwise_append.mp hpair).2.2 d hd k hkd
    have hnodup : (List.insertionSort strLe (matchedFiles files pfxs exts)).Nodup :=
      ((sort_matched_perm (matchedFiles files pfxs exts)).nodup_iff).mpr
        (matched_nodup pfxs exts hnd)
    have hdisj : List.Disjoint
        ((List.insertionSort strLe (matchedFiles files pfxs exts)).take
          ((matchedFiles files pfxs exts).length - mb))
        ((List.insertionSort strLe (matchedFiles files pfxs exts)).drop
          ((matchedFiles files pfxs exts).length - mb)) := by
      apply List.disjoint_of_nodup_append
      rw [hsplit]; exact hnodup
    refine ⟨hle, fun hdk => ?_⟩
    exact hdisj hd (hdk ▸ hkd)

lemma cleanup_kept_length {files pfxs exts : List String} {mb : Nat}
    (hnd : files.Nodup) :
    ((matchedFiles files pfxs exts).filter
        (fun f => f ∉ cleanup_old_backups files pfxs exts mb)).length
      = min (matchedFiles files pfxs exts).length mb := by
  by_cases h : (matchedFiles files pfxs exts).length ≤ mb
  · rw [cleanup_eq_nil_of_le h, List.filter_eq_self.mpr (fun a _ => by simp)]
    exact (min_eq_left h).symm
  · rw [cleanup_eq_take h]
    have hperm := (sort_matched_perm (matchedFiles files pfxs exts)).filter
      (fun f => decide (f ∉ (List.insertionSort strLe (matchedFiles files pfxs exts)).take
        ((matchedFiles files pfxs exts).length - mb)))
    rw [← hperm.length_eq]
    have hsplit := List.take_append_drop ((matchedFiles files pfxs exts).length - mb)
      (List.insertionSort strLe (matchedFiles files pfxs exts))
    have hnodup : (List.insertionSort strLe (matchedFiles files pfxs exts)).Nodup :=
      ((sort_matched_perm (matchedFiles files pfxs exts)).nodup_iff).mpr
        (matched_nodup pfxs exts hnd)
    have hdisj : List.Disjoint
        ((List.insertionSort strLe (matchedFiles files pfxs exts)).take
          ((matchedFiles files pfxs exts).length - mb))
        ((List.insertionSort strLe (matchedFiles files pfxs exts)).drop
          ((matchedFiles files pfxs exts).length - mb)) := by
      apply List.disjoint_of_nodup_append
      rw [hsplit]; exact hnodup
    conv_lhs => rw [← hsplit]
    rw [List.filter_append,
      List.filter_eq_nil_iff.mpr (fun a ha => by simp [ha]),
      List.filter_eq_self.mpr (fun a ha => by simp; exact fun hc => hdisj hc ha),
      List.nil_append, List.length_drop,
      (sort_matched_perm (matchedFiles files pfxs exts)).length_eq,
      Nat.sub_sub_self (le_of_not_le h)]
    exact (min_eq_right (le_of_not_le h)).symm

lemma matchedFiles_filter (files pfxs exts : List String) (q : String → Bool) :
    matchedFiles (files.filter q) pfxs exts = (matchedFiles files pfxs exts).filter q := by
  simp only [matchedFiles, List.filter_filter]
  exact List.filter_congr (fun a _ => by rw [Bool.and_comm])

lemma cleanup_disjoint_drop {files pfxs exts : List String} {mb : Nat}
    (hnd : files.Nodup) (h : ¬ (matchedFiles files pfxs exts).length ≤ mb) :
    List.Disjoint (cleanup_old_backups files pfxs exts mb)
      ((List.insertionSort strLe (matchedFiles files pfxs exts)).drop
        ((matchedFiles files pfxs exts).length - mb)) := by
  rw [cleanup_eq_take h]
  apply List.disjoint_of_nodup_append
  rw [List.take_append_drop]
  exact ((sort_matched_perm (matchedFiles files pfxs exts)).nodup_iff).mpr
    (matched_nodup pfxs exts hnd)

lemma flatMap_perm_of_perm {α β : Type} (l : List α) (f g : α → List β)
    (h : ∀ a, (f a).Perm (g a)) : (l.flatMap f).Perm (l.flatMap g) := by
  induction l with
  | nil => simp
  | cons a l ih =>
    simp only [List.flatMap_cons]
    exact (h a).append ih

lemma retention_core_perm {m1 m2 : List String} (hp : m1.Perm m2) (mb : Nat) :
    (if m1.length ≤ mb then []
      else (List.insertionSort strLe m1).take (m1.length - mb))
      = (if m2.length ≤ mb then []
          else (List.insertionSort strLe m2).take (m2.length - mb)) := by
  have hlen := hp.length_eq
  have hsort : List.insertionSort strLe m1 = List.insertionSort strLe m2 :=
    List.eq_of_perm_of_sorted
      (((sort_matched_perm m1).trans hp).trans (sort_matched_perm m2).symm)
      (sort_matched_sorted m1) (sort_matched_sorted m2)
  rw [hlen, hsort]

/-! ## Claims about the retention policy -/

/-- Claim C1: for every listing of remote names (distinct, as a store listing
is), declared prefixes, extension whitelist and max_backups ≥ 1, the retention
policy selects for deletion exactly the lexicographically smallest
max(0, |matched| - max_backups) names of the matched set: the selection has
that length, lies inside the matched set, every selected name is strictly
below every kept matched name, exactly min(|matched|, max_backups) matched
names remain, and when |matched| ≤ max_backups (an empty listing included)
the deletion set is empty, so no store mutation occurs. -/
theorem C1_retention_selects_lex_smallest
    (files pfxs exts : List String) (mb : Nat)
    (hmb : 1 ≤ mb) (hnd : files.Nodup) :
    (cleanup_old_backups files pfxs exts mb).length
        = (matchedFiles files pfxs exts).length - mb
    ∧ (∀ d ∈ cleanup_old_backups files pfxs exts mb, d ∈ matchedFiles files pfxs exts)
    ∧ (∀ d ∈ cleanup_old_backups files pfxs exts mb,
        ∀ k ∈ matchedFiles files pfxs exts,
          k ∉ cleanup_old_backups files pfxs exts mb → strLe d k ∧ d ≠ k)
    ∧ ((matchedFiles files pfxs exts).filter
          (fun f => f ∉ cleanup_old_backups files pfxs exts mb)).length
        = min (matchedFiles files pfxs exts).length mb
    ∧ ((matchedFiles files pfxs exts).length ≤ mb →
        cleanup_old_backups files pfxs exts mb = []) :=
  ⟨cleanup_length files pfxs exts mb,
   fun _ hd => cleanup_subset hd,
   fun _ hd _ hk hkn => cleanup_lt_kept hnd hd hk hkn,
   cleanup_kept_length hnd,
   fun h => cleanup_eq_nil_of_le h⟩

/-- Witness for C1: three matched backups, max_backups = 2, one deletion. -/
theorem C1_retention_witness :
    (cleanup_old_backups ["d_20240101_000000.zip", "d_20240102_000000.zip",
        "d_20240103_000000.zip"] ["d"] [".zip"] 2).length
      = (matchedFiles ["d_20240101_000000.zip", "d_20240102_000000.zip",
          "d_20240103_000000.zip"] ["d"] [".zip"]).length - 2 :=
  (C1_retention_selects_lex_smallest _ _ _ 2 (by decide) (by decide)).1

/-- Claim C7: retention is idempotent. Removing the first application's
selected deletions from the listing and applying the policy again yields an
empty deletion set. -/
theorem C7_retention_idempotent (files pfxs exts : List String) (mb : Nat)
    (hnd : files.Nodup) :
    cleanup_old_backups
      (files.filter (fun f => f ∉ cleanup_old_backups files pfxs exts mb))
      pfxs exts mb = [] := by
  apply cleanup_eq_nil_of_le
  rw [matchedFiles_filter, cleanup_kept_length hnd]
  exact min_le_right _ _

/-- Witness for C7 at a concrete listing with one deletion in the first run. -/
theorem C7_retention_witness :
    cleanup_old_backups
      ((["d_20240101_000000.zip", "d_20240102_000000.zip",
          "d_20240103_000000.zip"]).filter
        (fun f => f ∉ cleanup_old_backups ["d_20240101_000000.zip",
            "d_20240102_000000.zip", "d_20240103_000000.zip"] ["d"] [".zip"] 2))
      ["d"] [".zip"] 2 = [] :=
  C7_retention_idempotent _ _ _ _ (by decide)

/-- Claim C8: the matched set of simple_backup.py's cleanup contains no
duplicate names, even when one name matches several declared prefixes (the
`list(set(backup_files))` step, line 244). -/
theorem C8_matched_set_nodup (files : List String) (name : String)
    (is_db is_project : Bool) :
    (simple_backup_files files name is_db is_project).Nodup :=
  List.nodup_dedup _

/-- Claim C9: for a non-empty matched set and max_backups ≥ 1, the
lexicographically greatest matched name (the newest backup) is never
selected for deletion. -/
theorem C9_newest_never_deleted (files pfxs exts : List String) (mb : Nat)
    (m : String) (hnd : files.Nodup) (hmb : 1 ≤ mb)
    (hm : m ∈ matchedFiles files pfxs exts)
    (hmax : ∀ x ∈ matchedFiles files pfxs exts, strLe x m) :
    m ∉ cleanup_old_backups files pfxs exts mb := by
  intro hdel
  by_cases h : (matchedFiles files pfxs exts).length ≤ mb
  · rw [cleanup_eq_nil_of_le h] at hdel
    exact (List.not_mem_nil m) hdel
  · have hdropne : (List.insertionSort strLe (matchedFiles files pfxs exts)).drop
        ((matchedFiles files pfxs exts).length - mb) ≠ [] := by
      intro hnil
      have hlen := congrArg List.length hnil
      rw [List.length_drop, (sort_matched_perm _).length_eq,
        Nat.sub_sub_self (le_of_not_le h), List.length_nil] at hlen
      omega
    obtain ⟨x, hx⟩ := List.exists_mem_of_ne_nil _ hdropne
    have hxs : x ∈ matchedFiles files pfxs exts :=
      (sort_matched_perm (matchedFiles files pfxs exts)).mem_iff.mp
        (List.mem_of_mem_drop hx)
    have hxnotdel : x ∉ cleanup_old_backups files pfxs exts mb :=
      fun hx' => cleanup_disjoint_drop hnd h hx' hx
    obtain ⟨hlt, hne⟩ := cleanup_lt_kept hnd hdel hxs hxnotdel
    exact hne (antisymm hlt (hmax x hxs))

/-- Witness for C9: the newest of three matched backups is kept. -/
theorem C9_newest_witness :
    "d_20240103_000000.zip" ∉ cleanup_old_backups ["d_20240101_000000.zip",
        "d_20240102_000000.zip", "d_20240103_000000.zip"] ["d"] [".zip"] 2 :=
  C9_newest_never_deleted _ _ _ 2 _ (by decide) (by decide) (by decide) (by decide)

/-- Claim C10: the selected deletion set is independent of the store listing
order: two listings that are permutations of each other give the same
deletions, both in hf_dataset_backup.py's cleanup and in simple_backup.py's
cleanup, because the matched names are sorted before selection. -/
theorem C10_deletion_order_independent (l1 l2 : List String) (h : l1.Perm l2)
    (nm : String) (mb : Nat) (is_db is_project : Bool) :
    hf_cleanup_old_backups l1 nm mb = hf_cleanup_old_backups l2 nm mb
    ∧ simple_cleanup_old_backups l1 nm mb is_db is_project
        = simple_cleanup_old_backups l2 nm mb is_db is_project := by
  constructor
  · exact retention_core_perm (h.filter _) mb
  · exact retention_core_perm
      ((flatMap_perm_of_perm _ _ _ (fun p => h.filter _)).dedup) mb

/-- Witness for C10 on a reversed listing. -/
theorem C10_order_witness :
    hf_cleanup_old_backups ["b_20240101.zip", "b_20240102.zip", "b_20240103.zip"] "b" 1
      = hf_cleanup_old_backups ["b_20240103.zip", "b_20240102.zip", "b_20240101.zip"] "b" 1 :=
  (C10_deletion_order_independent _ _ (by decide) "b" 1 false true).1

/-! ## Claim C2: prefix matching across targets -/

/-- Counterexample to claim C2 as stated: in hf_dataset_backup.py's cleanup
the matching is a bare `startswith`, so `foobar_20240101.zip` DOES match the
declared primary prefix `foo` (first conjunct), and a matched name of a
different target sharing the prefix can be selected for deletion (second
conjunct: `foo-db_...` sorts below `foo_...` and is deleted when cleaning
target `foo`). -/
theorem C2_matching_counterexample :
    hf_backup_files ["foobar_20240101.zip"] "foo" = ["foobar_20240101.zip"]
    ∧ hf_cleanup_old_backups ["foo-db_20240101.zip", "foo_20240202.zip",
        "foo_20240303.zip"] "foo" 2 = ["foo-db_20240101.zip"] :=
  ⟨by decide, by decide⟩

/-- Claim C2 (amended): only simple_backup.py's project matcher confines a
name to its own target: it accepts a name for prefix `p` only when the name
starts with `p_backup_` or `p_20`, and in particular rejects
`foobar_20240101.zip` for declared prefix `foo`; the hf/db cleanups match by
bare declared prefix plus extension, under which `foobar_20240101.zip` does
match `foo`. -/
theorem C2_matching_amended :
    (∀ p f, projectMatchesPat p f = true →
        (pyStartsWith f (p ++ "_backup_") = true ∨ pyStartsWith f (p ++ "_20") = true))
    ∧ projectMatchesPat "foo" "foobar_20240101.zip" = false
    ∧ matchesTarget ["foo"] [".zip"] "foobar_20240101.zip" = true := by
  refine ⟨fun p f h => ?_, by decide, by decide⟩
  simp only [projectMatchesPat, Bool.and_eq_true, Bool.or_eq_true] at h
  exact h.1

/-! ## Job control flow (hf_dataset_backup.py main, db_backup.py main) -/

/-- Events observable at the collaborators, in call order. -/
inductive JobEv : Type
  | produce
  | upload
  | listFiles
  | deleteFile (name : String)
deriving DecidableEq

/-- Injected collaborator outcomes for one hf_dataset_backup.py run:
`download` models download_dataset plus create_archive (the producer),
`upload` models upload_to_webdav, `listing` models webdav_client.list, and
`deleteOutcome name` models webdav_client.clean on that name. An
`Except.error e` value models the call raising an exception with message
`e`; `Except.ok` models normal return. -/
structure HfCollab : Type where
  download : Except String String
  upload : Except String Unit
  listing : Except String (List String)
  deleteOutcome : String → Except String Unit

/-- Injected collaborator outcomes for db_backup.py's main after the dump
step (which returns a boolean, not an exception). -/
structure DbCollab : Type where
  upload : Except String Unit
  listing : Except String (List String)
  deleteOutcome : String → Except String Unit

/-- Deletion loop of cleanup_old_backups (hf_dataset_backup.py lines
129-133, db_backup.py lines 269-273): clean each selected name in order;
the first failing clean raises out of the loop (the except block, lines
136-138, logs and re-raises). Returns the outcome and the clean calls
actually made. -/
def deleteLoop (del : String → Except String Unit) :
    List String → Except String Unit × List JobEv
  | [] => (Except.ok (), [])
  | f :: fs =>
    match del f with
    | Except.error e => (Except.error e, [JobEv.deleteFile f])
    | Except.ok _ =>
      ((deleteLoop del fs).1, JobEv.deleteFile f :: (deleteLoop del fs).2)

/-- hf_dataset_backup.py `main` (lines 140-189): download the dataset (an
exception aborts, main's except block exits 1 with that error), upload
(same), then cleanup_old_backups: list the directory and run the deletion
loop, any exception being logged and re-raised into main's except block.
The first component is `ok ()` exactly when the script exits 0, and an
error carries the message of the exception that reached main; the second
records the collaborator calls made, in order. -/
def hf_main_run (c : HfCollab) (dataset_name : String) (max_backups : Nat) :
    Except String Unit × List JobEv :=
  match c.download with
  | Except.error e => (Except.error e, [JobEv.produce])
  | Except.ok _ =>
    match c.upload with
    | Except.error e => (Except.error e, [JobEv.produce, JobEv.upload])
    | Except.ok _ =>
      match c.listing with
      | Except.error e =>
          (Except.error e, [JobEv.produce, JobEv.upload, JobEv.listFiles])
      | Except.ok files =>
          ((deleteLoop c.deleteOutcome
              (hf_cleanup_old_backups files dataset_name max_backups)).1,
            JobEv.produce :: JobEv.upload :: JobEv.listFiles ::
              (deleteLoop c.deleteOutcome
                (hf_cleanup_old_backups files dataset_name max_backups)).2)

/-- db_backup.py `main` (lines 280-341): the dump step reports a boolean
`success`; on failure main logs and exits 1 before any WebDAV call (lines
318-320); otherwise upload, then cleanup, any exception exiting 1. -/
def db_main_run (success : Bool) (c : DbCollab) (db_name : String)
    (max_backups : Nat) : Except String Unit × List JobEv :=
  if success then
    match c.upload with
    | Except.error e => (Except.error e, [JobEv.produce, JobEv.upload])
    | Except.ok _ =>
      match c.listing with
      | Except.error e =>
          (Except.error e, [JobEv.produce, JobEv.upload, JobEv.listFiles])
      | Except.ok files =>
          ((deleteLoop c.deleteOutcome
              (db_cleanup_old_backups files db_name max_backups)).1,
            JobEv.produce :: JobEv.upload :: JobEv.listFiles ::
              (deleteLoop c.deleteOutcome
                (db_cleanup_old_backups files db_name max_backups)).2)
  else (Except.error "数据库备份失败", [JobEv.produce])

/-! ## Claims C3 and C5: error propagation in a job -/

/-- Counterexample to claim C3 as stated: a run of hf_dataset_backup.py in
which download, upload and list all succeed but the deletion of the one
stale name raises. The cleanup failure is re-raised (lines 136-138) and
reaches main's except block (lines 175-177), which exits 1: the job result
is a failure, not a success. -/
theorem C3_cleanup_failure_counterexample :
    hf_main_run
      ⟨Except.ok "/tmp/dataset", Except.ok (),
        Except.ok ["d_20240101_000000.zip", "d_20240102_000000.zip",
          "d_20240103_000000.zip"],
        fun _ => Except.error "delete failed"⟩
      "acct/d" 2
      = (Except.error "delete failed",
          [JobEv.produce, JobEv.upload, JobEv.listFiles,
            JobEv.deleteFile "d_20240101_000000.zip"]) := by
  rfl

/-- Claim C3 (amended): a retention deletion failure after a successful
upload is logged and re-raised, not swallowed: it fails the job, and the
job's result carries the deletion error. -/
theorem C3_cleanup_failure_fails_job (c : HfCollab) (ds : String) (mb : Nat)
    (p : String) (files : List String) (e : String)
    (h1 : c.download = Except.ok p) (h2 : c.upload = Except.ok ())
    (h3 : c.listing = Except.ok files)
    (h4 : (deleteLoop c.deleteOutcome (hf_cleanup_old_backups files ds mb)).1
            = Except.error e) :
    (hf_main_run c ds mb).1 = Except.error e := by
  simp only [hf_main_run, h1, h2, h3]
  exact h4

/-- Witness for C3's amended claim at the counterexample's inputs. -/
theorem C3_cleanup_failure_witness :
    (hf_main_run
      ⟨Except.ok "/tmp/dataset", Except.ok (),
        Except.ok ["d_20240101_000000.zip", "d_20240102_000000.zip",
          "d_20240103_000000.zip"],
        fun _ => Except.error "delete failed"⟩
      "acct/d" 2).1 = Except.error "delete failed" :=
  C3_cleanup_failure_fails_job _ "acct/d" 2 "/tmp/dataset" _ _ rfl rfl rfl rfl

/-- Claim C5: when the producer step fails, the job's result is a failure
carrying the producer error detail, and neither the upload nor the
retention listing/deletion calls are ever made — in hf_dataset_backup.py
(producer exception reaches main, exit 1) and in db_backup.py (dump step
returns failure, main exits 1 before any WebDAV call). -/
theorem C5_producer_failure_stops_job (c : HfCollab) (ds : String) (mb : Nat)
    (e : String) (dc : DbCollab) (dn : String) (mb2 : Nat)
    (h : c.download = Except.error e) :
    (hf_main_run c ds mb).1 = Except.error e
    ∧ JobEv.upload ∉ (hf_main_run c ds mb).2
    ∧ JobEv.listFiles ∉ (hf_main_run c ds mb).2
    ∧ (∀ f, JobEv.deleteFile f ∉ (hf_main_run c ds mb).2)
    ∧ db_main_run false dc dn mb2 = (Except.error "数据库备份失败", [JobEv.produce]) := by
  have hrun : hf_main_run c ds mb = (Except.error e, [JobEv.produce]) := by
    simp only [hf_main_run, h]
  rw [hrun]
  exact ⟨rfl, by simp, by simp, fun f => by simp, rfl⟩

/-- Witness for C5 at a concrete failing producer. -/
theorem C5_producer_failure_witness :
    (hf_main_run
      ⟨Except.error "download failed", Except.ok (), Except.ok [],
        fun _ => Except.ok ()⟩ "acct/d" 2).1 = Except.error "download failed" :=
  (C5_producer_failure_stops_job _ "acct/d" 2 "download failed"
    ⟨Except.ok (), Except.ok [], fun _ => Except.ok ()⟩ "db" 2 rfl).1

/-! ## Claim C4: the scheduler (multi_accounts_backup.py main) -/

/-- multi_accounts_backup.py `backup_dataset` (lines 49-81): runs the
hf_dataset_backup.py subprocess for one dataset and returns the triple the
collection loop consumes: returncode 0 yields `(True, name, None)`,
anything else `(False, name, stderr)` (an exception is likewise returned as
a failure triple, never propagated). -/
def backup_dataset_run (returncode : Int) (stderr dataset_name : String) :
    Bool × String × Option String :=
  if returncode = 0 then (true, dataset_name, none)
  else (false, dataset_name, some stderr)

/-- multi_accounts_backup.py lines 183-188: the collection loop over
`as_completed(futures)`, counting one success or one failure per completed
job result. -/
def collect_counts (results : List (Bool × String × Option String)) : Nat × Nat :=
  results.foldl
    (fun acc r => if r.1 then (acc.1 + 1, acc.2) else (acc.1, acc.2 + 1)) (0, 0)

lemma collect_counts_eq (results : List (Bool × String × Option String)) :
    collect_counts results
      = ((results.filter (fun r => r.1)).length,
         (results.filter (fun r => !r.1)).length) := by
  have key : ∀ (rs : List (Bool × String × Option String)) (acc : Nat × Nat),
      rs.foldl (fun acc r => if r.1 then (acc.1 + 1, acc.2) else (acc.1, acc.2 + 1)) acc
        = (acc.1 + (rs.filter (fun r => r.1)).length,
           acc.2 + (rs.filter (fun r => !r.1)).length) := by
    intro rs
    induction rs with
    | nil => intro acc; simp
    | cons r rs ih =>
      intro acc
      by_cases hr : r.1 = true
      · rw [List.foldl_cons, ih]
        simp only [hr, if_true, List.filter_cons, Bool.not_true, Bool.false_eq_true,
          if_false, List.length_cons]
        refine Prod.ext ?_ ?_ <;> simp <;> omega
      · rw [List.foldl_cons, ih]
        simp only [hr, if_false, List.filter_cons]
        refine Prod.ext ?_ ?_ <;> simp [hr] <;> omega
  rw [collect_counts, key]
  simp

lemma backup_dataset_run_success (rc : Int) (s n : String) :
    (backup_dataset_run rc s n).1 = decide (rc = 0) := by
  by_cases h : rc = 0 <;> simp [backup_dataset_run, h]

lemma collect_counts_fst (results : List (Bool × String × Option String)) :
    (collect_counts results).1 = (results.filter (fun r => r.1)).length := by
  rw [collect_counts_eq]

lemma collect_counts_snd (results : List (Bool × String × Option String)) :
    (collect_counts results).2 = (results.filter (fun r => !r.1)).length := by
  rw [collect_counts_eq]

/-- Claim C4: for every collection of N submitted jobs of which exactly K
(the tasks with non-zero returncode) are constructed to fail, and every pool
size P ≥ 1, the collection loop gathers exactly N results — in whatever
completion order the pool produced, modelled as any permutation of the
per-task results — counting exactly K failed and N − K succeeded; each
job's outcome is a function of its own task alone, so one job's failure
never stops, cancels or alters another's. -/
theorem C4_scheduler_counts (P : Nat) (hP : 1 ≤ P)
    (tasks : List (String × Int × String))
    (completed : List (Bool × String × Option String))
    (hc : completed.Perm (tasks.map (fun t => backup_dataset_run t.2.1 t.2.2 t.1))) :
    completed.length = tasks.length
    ∧ (collect_counts completed).2 = (tasks.filter (fun t => t.2.1 ≠ 0)).length
    ∧ (collect_counts completed).1
        = tasks.length - (tasks.filter (fun t => t.2.1 ≠ 0)).length
    ∧ (collect_counts completed).1 + (collect_counts completed).2 = tasks.length := by
  have hlen : completed.length = tasks.length := by
    rw [hc.length_eq, List.length_map]
  have hfail : (collect_counts completed).2
      = (tasks.filter (fun t => t.2.1 ≠ 0)).length := by
    rw [collect_counts_snd, (hc.filter (fun r => !r.1)).length_eq,
      List.filter_map, List.length_map]
    apply congrArg List.length
    apply List.filter_congr
    intro t _
    simp only [Function.comp_apply, backup_dataset_run_success]
    by_cases h : t.2.1 = 0 <;> simp [h]
  have hsum : (collect_counts completed).1 + (collect_counts completed).2
      = completed.length := by
    rw [collect_counts_fst, collect_counts_snd]
    have hp := (List.filter_append_perm (fun r => r.1) completed).length_eq
    rwa [List.length_append] at hp
  refine ⟨hlen, hfail, ?_, by omega⟩
  omega

/-- Witness for C4: three tasks, one constructed to fail, completion order
different from submission order. -/
theorem C4_scheduler_witness :
    (collect_counts [(false, "a/y", some "boom"), (true, "a/z", none),
        (true, "a/x", none)]).2
      = (([("a/x", (0 : Int), ""), ("a/y", (1 : Int), "boom"),
          ("a/z", (0 : Int), "")]).filter (fun t => t.2.1 ≠ 0)).length :=
  (C4_scheduler_counts 2 (by decide) _ _ (by decide)).2.1

/-! ## Claim C6: remote directory creation before upload -/

/-- Store events at the WebDAV client during one upload. -/
inductive WebEv : Type
  | mkdirEv (p : List String)
  | uploadEv
deriving DecidableEq

/-- simple_backup.py `create_remote_dirs` (lines 176-198), on the modelled
directory tree: a remote path is its list of components (`os.path.dirname`
drops the last component, the root is `[]`) and the tree is the list of
existing directory paths. The call recurses into the parent first, then
checks the current path and creates it when absent; the source swallows a
mkdir error for an already existing directory, so mkdir is modelled as
always succeeding. Returns the tree after the call and the list of the
mkdir calls made, in order. -/
def create_remote_dirs (fs : List (List String)) (p : List String) :
    List (List String) × List (List String) :=
  if h : p = [] then (fs, [])
  else
    if p ∈ (create_remote_dirs fs p.dropLast).1 then create_remote_dirs fs p.dropLast
    else
      (p :: (create_remote_dirs fs p.dropLast).1,
        (create_remote_dirs fs p.dropLast).2 ++ [p])
termination_by p.length
decreasing_by
  all_goals
    have hl : p.length ≠ 0 := fun h0 => h (List.length_eq_zero.mp h0)
    simp only [List.length_dropLast]
    omega

lemma create_remote_dirs_nil (fs : List (List String)) :
    create_remote_dirs fs [] = (fs, []) := by
  unfold create_remote_dirs
  simp

lemma create_remote_dirs_concat (fs : List (List String)) (ps : List String)
    (a : String) :
    create_remote_dirs fs (ps ++ [a])
      = (if (ps ++ [a]) ∈ (create_remote_dirs fs ps).1 then create_remote_dirs fs ps
          else ((ps ++ [a]) :: (create_remote_dirs fs ps).1,
            (create_remote_dirs fs ps).2 ++ [ps ++ [a]])) := by
  rw [create_remote_dirs]
  simp [List.dropLast_concat]

lemma create_remote_dirs_mono {fs : List (List String)} {q : List String}
    (p : List String) (hq : q ∈ fs) : q ∈ (create_remote_dirs fs p).1 := by
  induction p using List.reverseRecOn with
  | nil => rw [create_remote_dirs_nil]; exact hq
  | append_singleton ps a ih =>
    rw [create_remote_dirs_concat]
    by_cases hmem : (ps ++ [a]) ∈ (create_remote_dirs fs ps).1
    · simp only [if_pos hmem]; exact ih
    · simp only [if_neg hmem]; exact List.mem_cons_of_mem _ ih

lemma create_remote_dirs_creates {fs : List (List String)} (p : List String) :
    ∀ k, 1 ≤ k → k ≤ p.length → p.take k ∈ (create_remote_dirs fs p).1 := by
  induction p using List.reverseRecOn with
  | nil => intro k h1 h2; simp at h2; omega
  | append_singleton ps a ih =>
    intro k h1 h2
    rw [List.length_append, List.length_singleton] at h2
    by_cases hk : k ≤ ps.length
    · rw [List.take_append_of_le_length hk, create_remote_dirs_concat]
      by_cases hmem : (ps ++ [a]) ∈ (create_remote_dirs fs ps).1
      · simp only [if_pos hmem]; exact ih k h1 hk
      · simp only [if_neg hmem]; exact List.mem_cons_of_mem _ (ih k h1 hk)
    · have hk2 : k = ps.length + 1 := by omega
      have htake : (ps ++ [a]).take k = ps ++ [a] := by
        rw [hk2, show ps.length + 1 = (ps ++ [a]).length by simp, List.take_length]
      rw [htake, create_remote_dirs_concat]
      by_cases hmem : (ps ++ [a]) ∈ (create_remote_dirs fs ps).1
      · simp only [if_pos hmem]; exact hmem
      · simp only [if_neg hmem]; exact List.mem_cons_self _ _

lemma create_remote_dirs_made_spec {fs : List (List String)} (p : List String) :
    ∀ q ∈ (create_remote_dirs fs p).2,
      1 ≤ q.length ∧ q.length ≤ p.length ∧ q = p.take q.length := by
  induction p using List.reverseRecOn with
  | nil =>
    rw [create_remote_dirs_nil]
    intro q hq
    exact absurd hq (List.not_mem_nil q)
  | append_singleton ps a ih =>
    intro q hq
    rw [create_remote_dirs_concat] at hq
    by_cases hmem : (ps ++ [a]) ∈ (create_remote_dirs fs ps).1
    · rw [if_pos hmem] at hq
      obtain ⟨hq1, hq2, hq3⟩ := ih q hq
      exact ⟨hq1, by simp; omega, by rw [List.take_append_of_le_length hq2]; exact hq3⟩
    · rw [if_neg hmem] at hq
      rcases List.mem_append.mp hq with h1 | h2
      · obtain ⟨hq1, hq2, hq3⟩ := ih q h1
        exact ⟨hq1, by simp; omega, by rw [List.take_append_of_le_length hq2]; exact hq3⟩
      · have hq2 : q = ps ++ [a] := List.mem_singleton.mp h2
        subst hq2
        refine ⟨by simp, le_refl _, ?_⟩
        rw [List.take_length]

lemma create_remote_dirs_made_increasing {fs : List (List String)} (p : List String) :
    List.Pairwise (fun q r => q.length < r.length) (create_remote_dirs fs p).2 := by
  induction p using List.reverseRecOn with
  | nil => rw [create_remote_dirs_nil]; exact List.Pairwise.nil
  | append_singleton ps a ih =>
    rw [create_remote_dirs_concat]
    by_cases hmem : (ps ++ [a]) ∈ (create_remote_dirs fs ps).1
    · rw [if_pos hmem]; exact ih
    · rw [if_neg hmem]
      apply List.pairwise_append.mpr
      refine ⟨ih, List.pairwise_singleton _ _, ?_⟩
      intro q hq r hr
      have hql := (create_remote_dirs_made_spec ps q hq).2.1
      have hr2 : r = ps ++ [a] := List.mem_singleton.mp hr
      subst hr2
      simp only [List.length_append, List.length_singleton]
      omega

lemma create_remote_dirs_noop {fs : List (List String)} (p : List String) :
    (∀ j, 1 ≤ j → j ≤ p.length → p.take j ∈ fs) →
    create_remote_dirs fs p = (fs, []) := by
  induction p using List.reverseRecOn with
  | nil => intro _; exact create_remote_dirs_nil fs
  | append_singleton ps a ih =>
    intro h
    have hps : create_remote_dirs fs ps = (fs, []) := by
      apply ih
      intro j h1 h2
      have h3 := h j h1 (by simp; omega)
      rwa [List.take_append_of_le_length h2] at h3
    have hmem : (ps ++ [a]) ∈ fs := by
      have h3 := h (ps.length + 1) (by omega) (by simp)
      rwa [show ps.length + 1 = (ps ++ [a]).length by simp, List.take_length] at h3
    rw [create_remote_dirs_concat, hps]
    simp [hmem]

/-- hf_dataset_backup.py / db_backup.py `upload_to_webdav` (hf lines
85-105): one `check(remote_path)` and, when the path is absent, one
`mkdir(remote_path)` of the full path only — no recursion into parents —
followed by the upload. -/
def hf_upload_to_webdav (fs : List (List String)) (remote_path : List String) :
    List (List String) × List WebEv :=
  if remote_path ∈ fs then (fs, [WebEv.uploadEv])
  else (remote_path :: fs, [WebEv.mkdirEv remote_path, WebEv.uploadEv])

/-- simple_backup.py `upload_to_webdav` (lines 155-174): recursive
`create_remote_dirs`, then the upload. -/
def simple_upload_to_webdav (fs : List (List String)) (remote_path : List String) :
    List (List String) × List WebEv :=
  ((create_remote_dirs fs remote_path).1,
    ((create_remote_dirs fs remote_path).2).map WebEv.mkdirEv ++ [WebEv.uploadEv])

/-- Counterexample to claim C6 as stated: in hf_dataset_backup.py /
db_backup.py the upload creates only the destination directory itself. On
an empty store with two-level destination `backup/hf`, exactly one mkdir of
the full path is made, and the parent `backup` is still absent afterwards:
the destination was not created recursively, and no parent was created
before its child. -/
theorem C6_upload_mkdir_counterexample :
    (hf_upload_to_webdav [] ["backup", "hf"]).2
        = [WebEv.mkdirEv ["backup", "hf"], WebEv.uploadEv]
    ∧ ["backup"] ∉ (hf_upload_to_webdav [] ["backup", "hf"]).1 :=
  ⟨rfl, by decide⟩

/-- Claim C6 (amended): in simple_backup.py an absent destination path is
created recursively before the file transfer — after the call every
non-empty initial segment of the destination exists, every mkdir call is
for an initial segment and the calls come in strictly increasing depth
(each parent before its child), all mkdir events precede the upload event —
and a fully pre-existing path is a no-op; in hf_dataset_backup.py /
db_backup.py the upload creates only the destination directory itself when
absent (a pre-existing destination is a no-op, but parents are never
created). -/
theorem C6_mkdir_recursive_amended (fs : List (List String)) (p : List String)
    (k : Nat) (hk1 : 1 ≤ k) (hk2 : k ≤ p.length) :
    p.take k ∈ (create_remote_dirs fs p).1
    ∧ List.Pairwise (fun q r => q.length < r.length) (create_remote_dirs fs p).2
    ∧ (∀ q ∈ (create_remote_dirs fs p).2, q = p.take q.length)
    ∧ ((∀ j, 1 ≤ j → j ≤ p.length → p.take j ∈ fs) →
        create_remote_dirs fs p = (fs, []))
    ∧ (simple_upload_to_webdav fs p).2
        = ((create_remote_dirs fs p).2).map WebEv.mkdirEv ++ [WebEv.uploadEv]
    ∧ (p ∈ fs → hf_upload_to_webdav fs p = (fs, [WebEv.uploadEv]))
    ∧ (p ∉ fs →
        hf_upload_to_webdav fs p
          = (p :: fs, [WebEv.mkdirEv p, WebEv.uploadEv])) :=
  ⟨create_remote_dirs_creates p k hk1 hk2,
   create_remote_dirs_made_increasing p,
   fun q hq => (create_remote_dirs_made_spec p q hq).2.2,
   create_remote_dirs_noop p,
   rfl,
   fun h => by simp [hf_upload_to_webdav, h],
   fun h => by simp [hf_upload_to_webdav, h]⟩

/-- Witness for C6's amended claim: the parent component of the absent
destination `backup/hf` exists after the creating call. -/
theorem C6_mkdir_witness :
    (["backup", "hf"] : List String).take 1 ∈ (create_remote_dirs [] ["backup", "hf"]).1 :=
  (C6_mkdir_recursive_amended [] ["backup", "hf"] 1 (by decide) (by decide)).1
